import Mathlib

/-!
# Verification of the fleet-wide TypeScript syntax validator

A shallow embedding of `src/main.rs` of `swc-ts-stack-checker`.  External
collaborators (the GitHub API client, the `git` subprocess, the filesystem
and the swc parser) are modelled as explicit environment records whose fields
hold the outcome each external call would produce; the embedded functions
mirror the Rust control flow over those outcomes.  Effectful steps of a
repository pipeline additionally produce an event trace and thread an
explicit filesystem state, so that workspace-lifetime properties can be
stated and proved.
-/

deriving instance DecidableEq for Except

namespace StackChecker

/-- `struct Org` of `main.rs`: one organization as deserialized from the
GitHub API. -/
structure Org where
  repos_url : String
  login : String
deriving DecidableEq

/-- `struct Repo` of `main.rs`: one repository descriptor as deserialized
from the GitHub API. -/
structure Repo where
  fork : Bool
  archived : Bool
  clone_url : String
deriving DecidableEq

/-- Environment for the `Fetcher` methods: the outcome each GitHub API call
would produce.  `orgsResult` is the result of
`client.get().organizations().execute::<Vec<Org>>()` (an `Err` from the
client, or `Ok` carrying the optional deserialized body); `orgRepos name` is
likewise the result of `client.get().orgs().org(name).repos().execute()`. -/
structure ApiEnv where
  orgsResult : Except String (Option (List Org))
  orgRepos : String → Except String (Option (List Repo))

/-- `Fetcher::repos_of_org` of `main.rs`: fetch the named organization's
repositories; on an API error `bail!` with a message, otherwise return the
deserialized body, defaulting a missing body to the empty vector
(`repos.unwrap_or_default()`).  No filtering is applied. -/
def repos_of_org (api : ApiEnv) (name : String) : Except String (List Repo) :=
  match api.orgRepos name with
  | .error err => .error ("failed to fetch repository of organizations: " ++ err)
  | .ok repos => .ok (repos.getD [])

/-- The `for org in orgs` loop of `Fetcher::list_repositories`: fetch each
organization's repositories in turn, extending the accumulator `buf` with
the non-archived non-fork ones; the `?` on `repos_of_org` propagates the
first failure, discarding `buf`. -/
def list_repositories_loop (api : ApiEnv) : List Org → List Repo → Except String (List Repo)
  | [], buf => .ok buf
  | org :: rest, buf =>
    match repos_of_org api org.login with
    | .error e => .error e
    | .ok repos =>
      list_repositories_loop api rest
        (buf ++ repos.filter (fun repo => !repo.archived && !repo.fork))

/-- `Fetcher::list_repositories` of `main.rs`: list the organizations
visible to the credential; on an API error `bail!`; when the body is absent
(`if let Some(orgs) = orgs` fails) return the empty buffer; otherwise run
the per-organization loop starting from the empty buffer. -/
def list_repositories (api : ApiEnv) : Except String (List Repo) :=
  match api.orgsResult with
  | .error err => .error ("failed to fetch oranizations: " ++ err)
  | .ok none => .ok []
  | .ok (some orgs) => list_repositories_loop api orgs []

/-- The explicit-organization branch of `main`: one `repos_of_org` future is
created per positional argument and awaited in order, each result vector
pushed onto `repos`; the `?` propagates the first failure. -/
def explicitLoop (api : ApiEnv) : List String → Except String (List (List Repo))
  | [] => .ok []
  | name :: rest =>
    match repos_of_org api name with
    | .error e => .error e
    | .ok repos =>
      match explicitLoop api rest with
      | .error e => .error e
      | .ok more => .ok (repos :: more)

/-- Work-set resolution in `main`: `env::args()` always starts with the
program name, so `args.len() != 1` means at least one positional argument
was supplied; in that case the per-argument results are flattened
(`repos.into_iter().flatten().collect()`), otherwise full discovery runs. -/
def resolveWorkSet (api : ApiEnv) (argv : List String) : Except String (List Repo) :=
  if argv.length ≠ 1 then
    (explicitLoop api (argv.drop 1)).map List.flatten
  else
    list_repositories api

/-- Modelled from the spec: explicit-organization mode resolves the work set
by listing exactly the named organizations' repositories — `repos_of_org`
once per name, results concatenated in order, no archived/fork filter
applied, failing as a whole when any listing fails. -/
def specExplicitWorkSet (api : ApiEnv) : List String → Except String (List Repo)
  | [] => .ok []
  | name :: rest =>
    match repos_of_org api name with
    | .error e => .error e
    | .ok repos =>
      match specExplicitWorkSet api rest with
      | .error e => .error e
      | .ok more => .ok (repos ++ more)

/-! ## Filesystem trees, events and the walker -/

/-- One directory entry as the walker observes it through
`entry.file_type()` (which, like `std`, does not follow symlinks):
a subdirectory (with a flag telling whether `read_dir` on it succeeds and
its own entries), a regular file (with flags telling whether
`SourceMap::load_file` succeeds and whether its contents parse as a
TypeScript module), or any other entry kind (symlink, socket, ...). -/
inductive FsEntry where
  | dir (name : String) (readable : Bool) (entries : List FsEntry)
  | file (name : String) (loadable : Bool) (wellFormed : Bool)
  | other (name : String)

/-- Paths are lists of components, relative to the workspace root. -/
def pathString (p : List String) : String :=
  String.intercalate "/" p

/-- Rust's `Path::ends_with`: true iff the components of `suffix` are a
suffix of the components of `path`.  In particular
`Path::new("foo.ts").ends_with(".ts")` is `false`: `".ts"` is one whole
component and is compared against the whole file name, not against the
trailing characters of it. -/
def rustPathEndsWith (path suffix : List String) : Bool :=
  suffix.isSuffixOf path

/-- Observable events of one repository pipeline, tagged with the workspace
(`ws`, the model's name for the `TempDir`) they act in. -/
inductive Event where
  | pulling (url : String)
  | createWs (ws : Nat)
  | gitInvoke (args : List String) (ws : Nat)
  | readDir (ws : Nat) (path : List String)
  | fileCheck (ws : Nat) (path : List String)
  | loadFile (ws : Nat) (path : List String)
  | emitDiagnostic (ws : Nat) (path : List String)
  | deleteWs (ws : Nat)
deriving DecidableEq

/-- `check_file` of `main.rs` on the file at `path` inside workspace `ws`.
`cm.load_file` either fails (the `with_context` error is returned through
`?`) or yields the source text; `parser.parse_typescript_module()` either
succeeds, or reports a syntax error, in which case the `map_err` closure
emits the diagnostic to the handler and the following
`.expect("Failed to parse module.")` panics.  The panic is observed by the
caller of `spawn_blocking` as a `JoinError`, modelled here as an error
result. -/
def check_file (ws : Nat) (path : List String) (loadable wellFormed : Bool) :
    Except String Unit × List Event :=
  if !loadable then
    (.error ("failed to load file: " ++ pathString path), [.loadFile ws path])
  else if !wellFormed then
    (.error "Failed to parse module.", [.loadFile ws path, .emitDiagnostic ws path])
  else
    (.ok (), [.loadFile ws path])

mutual

/-- One iteration of the entry loop of `check_all_files`: a directory entry
is recursed into (after `read_dir`, which may fail); a regular file is
handed to `check_file` on a blocking task when the entry's path satisfies
`path.ends_with(".ts")`, and the `.await??` propagates both a panic of the
task and the error result of `check_file`; every other entry kind is
skipped. -/
def checkEntry (ws : Nat) (p : List String) : FsEntry → Except String Unit × List Event
  | .dir name readable entries =>
    let q := p ++ [name]
    if readable then
      let r := checkEntries ws q entries
      (r.1, .readDir ws q :: r.2)
    else
      (.error ("failed to read dir: " ++ pathString q), [])
  | .file name loadable wellFormed =>
    let path := p ++ [name]
    if rustPathEndsWith path [".ts"] then
      let r := check_file ws path loadable wellFormed
      (r.1, .fileCheck ws path :: r.2)
    else
      (.ok (), [])
  | .other _ => (.ok (), [])

/-- The `loop` of `check_all_files` over the remaining entries of the
directory at `p`: entries are processed in order and the first failing one
aborts the loop through `?`, leaving the rest unvisited. -/
def checkEntries (ws : Nat) (p : List String) : List FsEntry → Except String Unit × List Event
  | [] => (.ok (), [])
  | e :: rest =>
    match checkEntry ws p e with
    | (.ok _, ev) =>
      let r := checkEntries ws p rest
      (r.1, ev ++ r.2)
    | (.error msg, ev) => (.error msg, ev)

end

/-- `check_all_files` of `main.rs` applied to the workspace root:
`read_dir` on the root either fails (the `with_context` error) or the entry
loop runs.  Paths are relative to the workspace root; the real paths carry
the `.data/tmpXXXX` prefix in addition, which is irrelevant to the
`ends_with` test since that only inspects trailing components. -/
def check_all_files (ws : Nat) (rootReadable : Bool) (tree : List FsEntry) :
    Except String Unit × List Event :=
  if rootReadable then
    let r := checkEntries ws [] tree
    (r.1, .readDir ws [] :: r.2)
  else
    (.error "failed to read dir: ", [])

/-! ## Acquisition and the per-repository pipeline -/

/-- Outcome of `Command::output().await` for the `git` subprocess:
`output()` returns `Err` only when the process cannot be spawned; when the
process runs, `Ok` carries the captured output including the exit status —
which `git_pull` never inspects. -/
inductive SpawnResult where
  | noSpawn (msg : String)
  | exited (status : Int)
deriving DecidableEq

/-- Per-repository external environment: whether `env::current_dir`
succeeds, the outcome of the `git` subprocess, and the working tree the
walker finds in the workspace afterwards (`rootReadable` is whether
`read_dir` on the workspace root succeeds). -/
structure RepoEnv where
  curDirOk : Bool
  git : SpawnResult
  rootReadable : Bool
  tree : List FsEntry

/-- The staging area on disk: whether the fixed staging root `./.data`
exists, and which workspace directories currently exist inside it. -/
structure FsState where
  rootExists : Bool
  live : List Nat
deriving DecidableEq

/-- The model's name for `tmp_dir.path()`. -/
def wsPath (ws : Nat) : String :=
  ".data/tmp" ++ toString ws

/-- The argument list of the `git` subprocess built by `git_pull`. -/
def gitArgs (url : String) (ws : Nat) : List String :=
  ["pull", "--depth", "1", url, wsPath ws]

/-- `git_pull` of `main.rs`, over an allocator `alloc` standing for
`tempfile`'s fresh-name choice.  Steps, in source order: log `Pulling`;
`env::current_dir()` with context; `TempDir::new_in(cur_dir.join(".data"))`
— per `tempfile`'s contract this creates one fresh uniquely-named directory
*inside* `.data` and fails with the OS `NotFound` error when `.data` itself
is absent (the parent is never created); then the `git` subprocess via
`Command::output()`, whose `Err` (spawn failure only) is given the
`failed to clone` context and returned through `?`, dropping `tmp_dir` and
hence deleting the fresh directory.  A completed subprocess yields
`Ok(tmp_dir)` whatever its exit status. -/
def git_pull (alloc : List Nat → Nat) (e : RepoEnv) (repo : Repo) (s : FsState) :
    Except String Nat × List Event × FsState :=
  let ev0 : List Event := [.pulling repo.clone_url]
  if !e.curDirOk then
    (.error "failed to get current directory", ev0, s)
  else if !s.rootExists then
    (.error "No such file or directory", ev0, s)
  else
    let w := alloc s.live
    let s1 : FsState := { s with live := w :: s.live }
    match e.git with
    | .noSpawn _ =>
      (.error ("failed to clone " ++ repo.clone_url),
       ev0 ++ [.createWs w, .gitInvoke (gitArgs repo.clone_url w) w, .deleteWs w],
       { s1 with live := s1.live.erase w })
    | .exited _ =>
      (.ok w,
       ev0 ++ [.createWs w, .gitInvoke (gitArgs repo.clone_url w) w],
       s1)

/-- `handle` of `main.rs`: acquire a workspace, walk it, and — on every exit
path past a successful acquisition — drop `dir : TempDir` when the function
returns, deleting the workspace directory. -/
def handle (alloc : List Nat → Nat) (e : RepoEnv) (repo : Repo) (s : FsState) :
    Except String Unit × List Event × FsState :=
  match git_pull alloc e repo s with
  | (.error msg, ev, s1) => (.error msg, ev, s1)
  | (.ok w, ev, s1) =>
    let r := check_all_files w e.rootReadable e.tree
    (r.1, ev ++ r.2 ++ [.deleteWs w], { s1 with live := s1.live.erase w })

/-! ## The orchestrator -/

/-- Whole-run external environment: whether the `GITHUB_TOKEN` environment
variable is present, the API outcomes, and each repository's per-pipeline
environment. -/
structure MainEnv where
  tokenPresent : Bool
  api : ApiEnv
  repoEnv : Repo → RepoEnv

/-- The pipelines spawned by `main`, one per repository descriptor.  Each
task's result is its own `handle` outcome; the shared staging state is
threaded through. -/
def runPipelines (alloc : List Nat → Nat) (renv : Repo → RepoEnv) :
    List Repo → FsState → List (Except String Unit) × List Event × FsState
  | [], s => ([], [], s)
  | repo :: rest, s =>
    let r := handle alloc (renv repo) repo s
    let more := runPipelines alloc renv rest r.2.2
    (r.1 :: more.1, r.2.1 ++ more.2.1, more.2.2)

/-- The final `for task in tasks { task.await?? }` of `main`: the first
failed pipeline's error becomes `main`'s error. -/
def awaitAll : List (Except String Unit) → Except String Unit
  | [] => .ok ()
  | .ok _ :: rest => awaitAll rest
  | .error e :: _ => .error e

/-- `main` of `main.rs`.  A missing `GITHUB_TOKEN` panics in the `Fetcher`
construction; a work-set resolution error or any pipeline error is returned
as `main`'s `anyhow` error.  The process exit status is `0` exactly when
the result is `.ok ()`: an `Err` from `main` exits `1`, a panic exits
`101`. -/
def mainRun (alloc : List Nat → Nat) (env : MainEnv) (argv : List String) (s : FsState) :
    Except String Unit × List Event × FsState :=
  if !env.tokenPresent then
    (.error "Environment variable GITHUB_TOKEN is required", [], s)
  else
    match resolveWorkSet env.api argv with
    | .error e => (.error e, [], s)
    | .ok repos =>
      let r := runPipelines alloc env.repoEnv repos s
      (awaitAll r.1, r.2.1, r.2.2)

/-- A concrete allocator satisfying `tempfile`'s freshness contract:
one more than the maximum currently-live workspace name. -/
def freshAlloc (l : List Nat) : Nat :=
  l.foldr max 0 + 1

/-! ## Event classifiers and trace predicates -/

/-- The workspace an event acts in, if any. -/
def Event.wsOf : Event → Option Nat
  | .pulling _ => none
  | .createWs w => some w
  | .gitInvoke _ w => some w
  | .readDir w _ => some w
  | .fileCheck w _ => some w
  | .loadFile w _ => some w
  | .emitDiagnostic w _ => some w
  | .deleteWs w => some w

/-- File I/O inside a workspace: the `git` population of the directory and
every filesystem access of the walk/validate phase. -/
def Event.isWork : Event → Bool
  | .gitInvoke _ _ => true
  | .readDir _ _ => true
  | .fileCheck _ _ => true
  | .loadFile _ _ => true
  | .emitDiagnostic _ _ => true
  | _ => false

/-- Events the walker itself can emit, all tagged with workspace `ws`. -/
def Event.walkEvent (ws : Nat) : Event → Bool
  | .readDir w _ => w == ws
  | .fileCheck w _ => w == ws
  | .loadFile w _ => w == ws
  | .emitDiagnostic w _ => w == ws
  | _ => false

theorem walkEvent_wsOf {ws : Nat} {x : Event} (h : x.walkEvent ws = true) :
    x.wsOf = some ws := by
  cases x <;> simp_all [Event.walkEvent, Event.wsOf]

theorem walkEvent_ne_createWs {ws v : Nat} {x : Event} (h : x.walkEvent ws = true) :
    x ≠ Event.createWs v := by
  cases x <;> simp_all [Event.walkEvent]

theorem walkEvent_ne_deleteWs {ws v : Nat} {x : Event} (h : x.walkEvent ws = true) :
    x ≠ Event.deleteWs v := by
  cases x <;> simp_all [Event.walkEvent]

theorem freshAlloc_fresh : ∀ l : List Nat, freshAlloc l ∉ l := by
  intro l
  have hle : ∀ x ∈ l, x ≤ l.foldr max 0 := by
    induction l with
    | nil => simp
    | cons a t ih =>
      intro x hx
      rcases List.mem_cons.mp hx with h | h
      · subst h; exact le_max_left _ _
      · exact le_trans (ih x h) (le_max_right _ _)
  intro hmem
  have := hle _ hmem
  simp only [freshAlloc] at this
  omega

/-! ## Walker trace lemmas -/

theorem check_file_walk (ws : Nat) (path : List String) (loadable wellFormed : Bool) :
    ∀ x ∈ (check_file ws path loadable wellFormed).2, x.walkEvent ws = true := by
  intro x hx
  by_cases hl : loadable
  · by_cases hw : wellFormed
    · simp [check_file, hl, hw] at hx
      subst hx; simp [Event.walkEvent]
    · simp [check_file, hl, hw] at hx
      rcases hx with hx | hx <;> (subst hx; simp [Event.walkEvent])
  · simp [check_file, hl] at hx
    subst hx; simp [Event.walkEvent]

mutual

theorem checkEntry_walk (ws : Nat) (p : List String) (e : FsEntry) :
    ∀ x ∈ (checkEntry ws p e).2, x.walkEvent ws = true := by
  cases e with
  | dir name readable entries =>
    intro x hx
    by_cases hr : readable
    · simp only [checkEntry, hr, if_true] at hx
      rcases List.mem_cons.mp hx with h | h
      · subst h; simp [Event.walkEvent]
      · exact checkEntries_walk ws (p ++ [name]) entries x h
    · simp [checkEntry, hr] at hx
  | file name loadable wellFormed =>
    intro x hx
    by_cases hts : rustPathEndsWith (p ++ [name]) [".ts"]
    · simp only [checkEntry, hts, if_true] at hx
      rcases List.mem_cons.mp hx with h | h
      · subst h; simp [Event.walkEvent]
      · exact check_file_walk ws (p ++ [name]) loadable wellFormed x h
    · simp [checkEntry, hts] at hx
  | other name =>
    intro x hx
    simp [checkEntry] at hx

theorem checkEntries_walk (ws : Nat) (p : List String) (es : List FsEntry) :
    ∀ x ∈ (checkEntries ws p es).2, x.walkEvent ws = true := by
  cases es with
  | nil => intro x hx; simp [checkEntries] at hx
  | cons e rest =>
    intro x hx
    have hhead := checkEntry_walk ws p e
    rcases hE : checkEntry ws p e with ⟨r, ev⟩
    rw [hE] at hhead
    cases r with
    | ok u =>
      simp only [checkEntries, hE] at hx
      rcases List.mem_append.mp hx with h | h
      · exact hhead x h
      · exact checkEntries_walk ws p rest x h
    | error msg =>
      simp only [checkEntries, hE] at hx
      exact hhead x hx

end

/-! ## The walk/validate result does not depend on the workspace name -/

mutual

theorem checkEntry_fst (ws v : Nat) (p : List String) (e : FsEntry) :
    (checkEntry ws p e).1 = (checkEntry v p e).1 := by
  cases e with
  | dir name readable entries =>
    by_cases hr : readable
    · simpa [checkEntry, hr] using checkEntries_fst ws v (p ++ [name]) entries
    · simp [checkEntry, hr]
  | file name loadable wellFormed =>
    by_cases hts : rustPathEndsWith (p ++ [name]) [".ts"]
    · by_cases hl : loadable
      · by_cases hw : wellFormed <;> simp [checkEntry, hts, check_file, hl, hw]
      · simp [checkEntry, hts, check_file, hl]
    · simp [checkEntry, hts]
  | other name => simp [checkEntry]

theorem checkEntries_fst (ws v : Nat) (p : List String) (es : List FsEntry) :
    (checkEntries ws p es).1 = (checkEntries v p es).1 := by
  cases es with
  | nil => simp [checkEntries]
  | cons e rest =>
    have hhead := checkEntry_fst ws v p e
    rcases hE : checkEntry ws p e with ⟨r, ev⟩
    rcases hE2 : checkEntry v p e with ⟨r2, ev2⟩
    rw [hE, hE2] at hhead
    simp only at hhead
    subst hhead
    cases r with
    | ok u => simpa [checkEntries, hE, hE2] using checkEntries_fst ws v p rest
    | error msg => simp [checkEntries, hE, hE2]

end

theorem check_all_files_fst (ws v : Nat) (rootReadable : Bool) (tree : List FsEntry) :
    (check_all_files ws rootReadable tree).1 = (check_all_files v rootReadable tree).1 := by
  by_cases hr : rootReadable
  · simpa [check_all_files, hr] using checkEntries_fst ws v [] tree
  · simp [check_all_files, hr]

/-! ## Pipeline result as a pure function of its environment -/

/-- The result a repository pipeline ends with, as a function of its
external environment (the staging state only matters through whether the
staging root exists). -/
def handleResult (e : RepoEnv) (repo : Repo) (rootExists : Bool) : Except String Unit :=
  if !e.curDirOk then .error "failed to get current directory"
  else if !rootExists then .error "No such file or directory"
  else
    match e.git with
    | .noSpawn _ => .error ("failed to clone " ++ repo.clone_url)
    | .exited _ => (check_all_files 0 e.rootReadable e.tree).1

theorem handle_fst (alloc : List Nat → Nat) (e : RepoEnv) (repo : Repo) (s : FsState) :
    (handle alloc e repo s).1 = handleResult e repo s.rootExists := by
  by_cases hc : e.curDirOk
  · by_cases hr : s.rootExists
    · cases hg : e.git with
      | noSpawn msg => simp [handle, git_pull, handleResult, hc, hr, hg]
      | exited n =>
        simp only [handle, git_pull, handleResult, hc, hr, hg, Bool.not_true,
          Bool.not_false, if_false]
        exact check_all_files_fst _ 0 e.rootReadable e.tree
    · simp [handle, git_pull, handleResult, hc, hr]
  · simp [handle, git_pull, handleResult, hc]

theorem handle_rootExists (alloc : List Nat → Nat) (e : RepoEnv) (repo : Repo) (s : FsState) :
    ((handle alloc e repo s).2.2).rootExists = s.rootExists := by
  by_cases hc : e.curDirOk
  · by_cases hr : s.rootExists
    · cases hg : e.git with
      | noSpawn msg => simp [handle, git_pull, hc, hr, hg]
      | exited n => simp [handle, git_pull, hc, hr, hg]
    · simp [handle, git_pull, hc, hr]
  · simp [handle, git_pull, hc]

theorem runPipelines_fst (alloc : List Nat → Nat) (renv : Repo → RepoEnv)
    (repos : List Repo) (s : FsState) :
    (runPipelines alloc renv repos s).1 =
      repos.map (fun repo => handleResult (renv repo) repo s.rootExists) := by
  induction repos generalizing s with
  | nil => simp [runPipelines]
  | cons repo rest ih =>
    simp only [runPipelines, List.map_cons]
    rw [handle_fst alloc (renv repo) repo s, ih ((handle alloc (renv repo) repo s).2.2),
      handle_rootExists alloc (renv repo) repo s]

theorem awaitAll_ok_iff (rs : List (Except String Unit)) :
    awaitAll rs = .ok () ↔ ∀ r ∈ rs, r = .ok () := by
  induction rs with
  | nil => simp [awaitAll]
  | cons r rest ih =>
    cases r with
    | ok u => cases u; simpa [awaitAll] using ih
    | error e => simp [awaitAll]

/-- The exit-status characterization of a whole run: `main` returns `Ok`
exactly when the credential is present, work-set resolution succeeded, and
every launched pipeline returned `Ok`. -/
theorem mainRun_ok_iff (alloc : List Nat → Nat) (env : MainEnv) (argv : List String)
    (s : FsState) :
    (mainRun alloc env argv s).1 = .ok () ↔
      (env.tokenPresent = true ∧
        ∃ repos, resolveWorkSet env.api argv = .ok repos ∧
          ∀ repo ∈ repos, handleResult (env.repoEnv repo) repo s.rootExists = .ok ()) := by
  by_cases ht : env.tokenPresent
  · cases hw : resolveWorkSet env.api argv with
    | error e => simp [mainRun, ht, hw]
    | ok repos =>
      have h1 : (mainRun alloc env argv s).1
          = awaitAll (runPipelines alloc env.repoEnv repos s).1 := by
        simp [mainRun, ht, hw]
      rw [h1, runPipelines_fst, awaitAll_ok_iff]
      constructor
      · intro h
        exact ⟨ht, repos, rfl, fun repo hr => h _ (List.mem_map_of_mem _ hr)⟩
      · rintro ⟨-, repos2, hw2, h⟩
        obtain rfl := Except.ok.inj hw2
        intro r hr
        rcases List.mem_map.mp hr with ⟨repo, hrepo, rfl⟩
        exact h repo hrepo
  · simp [mainRun, ht]

/-! ## Discovery lemmas -/

theorem repos_of_org_ok {api : ApiEnv} {name : String} {repos : List Repo}
    (h : repos_of_org api name = .ok repos) :
    ∃ o, api.orgRepos name = .ok o ∧ repos = o.getD [] := by
  unfold repos_of_org at h
  cases ho : api.orgRepos name with
  | error e => rw [ho] at h; cases h
  | ok o => rw [ho] at h; exact ⟨o, rfl, (Except.ok.inj h).symm⟩

theorem list_repositories_loop_mem (api : ApiEnv) (r : Repo) :
    ∀ (orgs : List Org) (acc buf : List Repo),
      list_repositories_loop api orgs acc = .ok buf →
      (r ∈ buf ↔ r ∈ acc ∨ ∃ org ∈ orgs, ∃ o, api.orgRepos org.login = .ok o ∧
        r ∈ o.getD [] ∧ r.archived = false ∧ r.fork = false) := by
  intro orgs
  induction orgs with
  | nil =>
    intro acc buf h
    simp only [list_repositories_loop] at h
    obtain rfl := Except.ok.inj h
    simp
  | cons org rest ih =>
    intro acc buf h
    simp only [list_repositories_loop] at h
    cases hr : repos_of_org api org.login with
    | error e => rw [hr] at h; cases h
    | ok repos =>
      rw [hr] at h
      obtain ⟨o, ho, rfl⟩ := repos_of_org_ok hr
      rw [ih _ _ h]
      simp only [List.mem_append, List.mem_filter, List.mem_cons, Bool.and_eq_true,
        Bool.not_eq_true']
      constructor
      · rintro ((h1 | ⟨h1, h2, h3⟩) | ⟨org2, ho2, o2, hl, hm, ha, hf⟩)
        · exact Or.inl h1
        · exact Or.inr ⟨org, Or.inl rfl, o, ho, h1, h2, h3⟩
        · exact Or.inr ⟨org2, Or.inr ho2, o2, hl, hm, ha, hf⟩
      · rintro (h1 | ⟨org2, (rfl | ho2), o2, hl, hm, ha, hf⟩)
        · exact Or.inl (Or.inl h1)
        · rw [ho] at hl
          obtain rfl := Except.ok.inj hl
          exact Or.inl (Or.inr ⟨hm, ha, hf⟩)
        · exact Or.inr ⟨org2, ho2, o2, hl, hm, ha, hf⟩

theorem list_repositories_loop_error (api : ApiEnv) {org : Org} {msg : String}
    (horg : api.orgRepos org.login = .error msg) :
    ∀ orgs : List Org, org ∈ orgs → ∀ acc : List Repo,
      ∃ e, list_repositories_loop api orgs acc = .error e := by
  intro orgs
  induction orgs with
  | nil => intro h; cases h
  | cons head rest ih =>
    intro hmem acc
    rcases List.mem_cons.mp hmem with rfl | hmem2
    · refine ⟨"failed to fetch repository of organizations: " ++ msg, ?_⟩
      simp [list_repositories_loop, repos_of_org, horg]
    · cases hr : repos_of_org api head.login with
      | error e => exact ⟨e, by simp [list_repositories_loop, hr]⟩
      | ok repos =>
        obtain ⟨e, he⟩ :=
          ih hmem2 (acc ++ repos.filter (fun repo => !repo.archived && !repo.fork))
        refine ⟨e, ?_⟩
        simp only [list_repositories_loop, hr]
        exact he

theorem explicitLoop_spec (api : ApiEnv) (names : List String) :
    (explicitLoop api names).map List.flatten = specExplicitWorkSet api names := by
  induction names with
  | nil => simp [explicitLoop, specExplicitWorkSet, Except.map]
  | cons name rest ih =>
    cases hr : repos_of_org api name with
    | error e => simp [explicitLoop, specExplicitWorkSet, hr, Except.map]
    | ok repos =>
      cases hl : explicitLoop api rest with
      | error e =>
        have hs : specExplicitWorkSet api rest = .error e := by
          rw [← ih, hl]; rfl
        simp [explicitLoop, specExplicitWorkSet, hr, hl, hs, Except.map]
      | ok more =>
        have hs : specExplicitWorkSet api rest = .ok more.flatten := by
          rw [← ih, hl]; rfl
        simp [explicitLoop, specExplicitWorkSet, hr, hl, hs, Except.map]

theorem check_all_files_walk (ws : Nat) (rootReadable : Bool) (tree : List FsEntry) :
    ∀ x ∈ (check_all_files ws rootReadable tree).2, x.walkEvent ws = true := by
  intro x hx
  by_cases hr : rootReadable
  · simp only [check_all_files, hr, if_true] at hx
    rcases List.mem_cons.mp hx with h | h
    · subst h; simp [Event.walkEvent]
    · exact checkEntries_walk ws [] tree x h
  · simp [check_all_files, hr] at hx

/-! ## Shared demonstration inputs -/

/-- Modelled from the spec: "file name ends in the `.ts` suffix" — a
character-level suffix test on the file name, the relation the spec's File
Walker section is written in terms of. -/
def strEndsWith (s suffix : String) : Bool :=
  suffix.data.isSuffixOf s.data

/-- A plain repository descriptor used in concrete runs. -/
def demoRepo : Repo :=
  { fork := false, archived := false, clone_url := "https://example.com/a.git" }

/-- A pipeline environment where everything external succeeds and the
working tree is empty. -/
def demoEnv : RepoEnv :=
  { curDirOk := true, git := .exited 0, rootReadable := true, tree := [] }

/-- A staging state where `./.data` exists and no workspace is live. -/
def demoState : FsState :=
  { rootExists := true, live := [] }

/-! ## Claims -/

/-- Claim C1, refuted on the code: the File Walker is claimed to yield
exactly the regular files whose *name ends in* `".ts"`.  The code tests
`path.ends_with(".ts")`, and Rust's `Path::ends_with` compares whole path
components, so a regular file named `foo.ts` — whose name does end in
`".ts"` — is skipped (the walk of a tree holding only that file checks
nothing), while only a file literally named `".ts"` is handed to the
validator.  The repository's stated purpose (validating every TypeScript
source file) makes the spec the intent and the code a slip
(`Path::ends_with` vs `Path::extension`/`str::ends_with`). -/
theorem c1_walker_suffix_bug :
    strEndsWith "foo.ts" ".ts" = true ∧
    rustPathEndsWith ["foo.ts"] [".ts"] = false ∧
    check_all_files 0 true [FsEntry.file "foo.ts" true true]
      = (.ok (), [Event.readDir 0 []]) ∧
    (check_all_files 0 true [FsEntry.file ".ts" true true]).2
      = [Event.readDir 0 [], Event.fileCheck 0 [".ts"], Event.loadFile 0 [".ts"]] := by
  refine ⟨by decide, by decide, by decide, by decide⟩

/-- Claim C3 counterexample: with a current directory, an existing staging
root and a `git` subprocess that runs but exits with status `1`, `git_pull`
still returns the workspace — the exit status of `Command::output()` is
never inspected, so a failed retrieval is not reported as an acquisition
error. -/
theorem c3_counterexample :
    RepoEnv.git { demoEnv with git := .exited 1 } = SpawnResult.exited 1 ∧
    (git_pull freshAlloc { demoEnv with git := .exited 1 } demoRepo demoState).1
      = .ok 1 := by
  refine ⟨by decide, by decide⟩

/-- Claim C3 as amended: `git_pull` returns a Workspace iff the current
directory lookup succeeds, the staging root exists (so the temporary
directory can be created) and the `git` subprocess can be spawned; the
subprocess's exit status is not checked, so a non-zero exit still yields a
Workspace, and an acquisition error is returned only for a spawn failure
(or a failure of the two local steps before it). -/
theorem c3_amended (alloc : List Nat → Nat) (e : RepoEnv) (repo : Repo) (s : FsState) :
    ((∃ w, (git_pull alloc e repo s).1 = .ok w) ↔
      (e.curDirOk = true ∧ s.rootExists = true ∧ ∃ n, e.git = .exited n)) := by
  by_cases hc : e.curDirOk
  · by_cases hr : s.rootExists
    · cases hg : e.git with
      | noSpawn msg => simp [git_pull, hc, hr, hg]
      | exited n => simp [git_pull, hc, hr, hg]
    · simp [git_pull, hc, hr]
  · simp [git_pull, hc]

/-- Claim C8 counterexample: when the fixed staging root `./.data` is
absent, acquisition does not create it — `TempDir::new_in` fails with the
OS `NotFound` error, `git_pull` returns that error, and the staging root
still does not exist afterwards (no code path creates it), contradicting
the claim's "creating that staging root if it is absent". -/
theorem c8_counterexample :
    FsState.rootExists { demoState with rootExists := false } = false ∧
    (git_pull freshAlloc demoEnv demoRepo { demoState with rootExists := false }).1
      = .error "No such file or directory" ∧
    ((git_pull freshAlloc demoEnv demoRepo
        { demoState with rootExists := false }).2.2).rootExists = false := by
  refine ⟨by decide, by decide, by decide⟩

/-- Claim C8 as amended: acquisition creates a fresh, uniquely-named
temporary directory under the fixed staging root (failing instead of
creating the root when the root is absent), and invokes the retrieval
mechanism with the descriptor's `clone_url` and a history depth limited to
the latest revision (`--depth 1`). -/
theorem c8_amended (alloc : List Nat → Nat) (hfresh : ∀ l, alloc l ∉ l)
    (e : RepoEnv) (repo : Repo) (s : FsState) :
    (s.rootExists = false → ∀ w, (git_pull alloc e repo s).1 ≠ .ok w) ∧
    (∀ w, (git_pull alloc e repo s).1 = .ok w →
      w ∉ s.live ∧
      ((git_pull alloc e repo s).2.2).live = w :: s.live ∧
      Event.gitInvoke (gitArgs repo.clone_url w) w ∈ (git_pull alloc e repo s).2.1 ∧
      gitArgs repo.clone_url w = ["pull", "--depth", "1", repo.clone_url, wsPath w]) := by
  constructor
  · intro hroot w
    by_cases hc : e.curDirOk <;> simp [git_pull, hc, hroot]
  · intro w hok
    by_cases hc : e.curDirOk
    · by_cases hr : s.rootExists
      · cases hg : e.git with
        | noSpawn msg => simp [git_pull, hc, hr, hg] at hok
        | exited n =>
          simp only [git_pull, hc, hr, hg, Bool.not_true, Bool.not_false,
            Bool.false_eq_true, if_false, Except.ok.injEq] at hok
          subst hok
          refine ⟨hfresh s.live, by simp [git_pull, hc, hr, hg], ?_, rfl⟩
          simp [git_pull, hc, hr, hg]
      · simp [git_pull, hc, hr] at hok
    · simp [git_pull, hc] at hok

/-- Claim C8 amended, witnessed on a concrete acquisition. -/
theorem c8_amended_witness :
    ((demoState.rootExists = false →
        ∀ w, (git_pull freshAlloc demoEnv demoRepo demoState).1 ≠ .ok w) ∧
      (∀ w, (git_pull freshAlloc demoEnv demoRepo demoState).1 = .ok w →
        w ∉ demoState.live ∧
        ((git_pull freshAlloc demoEnv demoRepo demoState).2.2).live
          = w :: demoState.live ∧
        Event.gitInvoke (gitArgs demoRepo.clone_url w) w
          ∈ (git_pull freshAlloc demoEnv demoRepo demoState).2.1 ∧
        gitArgs demoRepo.clone_url w
          = ["pull", "--depth", "1", demoRepo.clone_url, wsPath w])) :=
  c8_amended freshAlloc freshAlloc_fresh demoEnv demoRepo demoState

/-- A demonstration organization. -/
def demoOrg : Org :=
  { repos_url := "https://api.example.com/orgs/acme/repos", login := "acme" }

/-- Repositories with every flag combination: only `demoRepo` (non-archived
non-fork) should survive the full-discovery filter. -/
def demoForkRepo : Repo :=
  { fork := true, archived := false, clone_url := "https://example.com/f.git" }

def demoArchivedRepo : Repo :=
  { fork := false, archived := true, clone_url := "https://example.com/ar.git" }

/-- An API environment with one organization owning one repository of every
flag combination. -/
def demoApi : ApiEnv :=
  { orgsResult := .ok (some [demoOrg]),
    orgRepos := fun _ => .ok (some [demoRepo, demoForkRepo, demoArchivedRepo]) }

/-- Claim C4: in full-discovery mode a repository is in the work set iff it
was returned for one of the visited organizations and both its `archived`
and `fork` flags are false; in explicit-organization mode `repos_of_org`
returns the API's repository payload verbatim, with no flag filtering. -/
theorem c4_filtering (api : ApiEnv) (orgs : List Org)
    (horgs : api.orgsResult = .ok (some orgs))
    (buf : List Repo) (hbuf : list_repositories api = .ok buf) (r : Repo) :
    (r ∈ buf ↔ ∃ org ∈ orgs, ∃ o, api.orgRepos org.login = .ok o ∧
      r ∈ o.getD [] ∧ r.archived = false ∧ r.fork = false) ∧
    (∀ name o, api.orgRepos name = .ok o → repos_of_org api name = .ok (o.getD [])) := by
  constructor
  · have hloop : list_repositories_loop api orgs [] = .ok buf := by
      simpa [list_repositories, horgs] using hbuf
    simpa using list_repositories_loop_mem api r orgs [] buf hloop
  · intro name o ho
    simp [repos_of_org, ho]

/-- Claim C4, witnessed on `demoApi`: discovery keeps exactly the
non-archived non-fork repository. -/
theorem c4_filtering_witness :
    (demoRepo ∈ [demoRepo] ↔ ∃ org ∈ [demoOrg], ∃ o, demoApi.orgRepos org.login = .ok o ∧
      demoRepo ∈ o.getD [] ∧ demoRepo.archived = false ∧ demoRepo.fork = false) ∧
    (∀ name o, demoApi.orgRepos name = .ok o →
      repos_of_org demoApi name = .ok (o.getD [])) :=
  c4_filtering demoApi [demoOrg] rfl [demoRepo] (by decide) demoRepo

/-- Claim C7: in full-discovery mode, if fetching the repositories of any
visited organization fails, `list_repositories` fails as a whole — the
buffer accumulated from earlier organizations is discarded, and no
repository list is returned. -/
theorem c7_discovery_error (api : ApiEnv) (orgs : List Org)
    (horgs : api.orgsResult = .ok (some orgs)) (org : Org) (hmem : org ∈ orgs)
    (msg : String) (herr : api.orgRepos org.login = .error msg) :
    ∃ e, list_repositories api = .error e := by
  obtain ⟨e, he⟩ := list_repositories_loop_error api herr orgs hmem []
  exact ⟨e, by simp [list_repositories, horgs, he]⟩

/-- An API environment where the first organization's repositories resolve
but the second organization's repository listing fails. -/
def failTailApi : ApiEnv :=
  { orgsResult := .ok (some [demoOrg, { repos_url := "u", login := "broken" }]),
    orgRepos := fun name =>
      if name = "acme" then .ok (some [demoRepo]) else .error "HTTP 502" }

/-- Claim C7, witnessed: a failure on the second organization makes the
whole discovery fail even though the first organization already produced
repositories. -/
theorem c7_discovery_error_witness :
    ∃ e, list_repositories failTailApi = .error e :=
  c7_discovery_error failTailApi [demoOrg, { repos_url := "u", login := "broken" }] rfl
    { repos_url := "u", login := "broken" } (by decide) "HTTP 502" (by decide)

/-- Claim C9: with zero positional arguments the work set is resolved by
full discovery (`list_repositories`, which filters); with at least one
positional argument it is resolved by `repos_of_org` once per named
organization, concatenated in order with no filter, as captured by the
spec-side `specExplicitWorkSet`. -/
theorem c9_mode_selection (api : ApiEnv) (prog : String) (posArgs : List String) :
    (posArgs = [] → resolveWorkSet api (prog :: posArgs) = list_repositories api) ∧
    (posArgs ≠ [] → resolveWorkSet api (prog :: posArgs) = specExplicitWorkSet api posArgs) := by
  constructor
  · rintro rfl
    simp [resolveWorkSet]
  · intro h
    have hlen : (prog :: posArgs).length ≠ 1 := by
      simp only [List.length_cons, ne_eq, Nat.add_right_cancel_iff]
      simpa using h
    rw [resolveWorkSet, if_pos hlen]
    simpa using explicitLoop_spec api posArgs

/-- Claim C9, witnessed in both modes on `demoApi`. -/
theorem c9_mode_selection_witness :
    resolveWorkSet demoApi ["checker"] = list_repositories demoApi ∧
    resolveWorkSet demoApi ["checker", "acme"] = specExplicitWorkSet demoApi ["acme"] :=
  ⟨(c9_mode_selection demoApi "checker" []).1 rfl,
   (c9_mode_selection demoApi "checker" ["acme"]).2 (by decide)⟩

/-- Claim C10: an explicit-organization request whose API call succeeds but
carries no repository payload yields the empty repository list, not an
error: the organization contributes no work and does not end the run (the
remaining arguments are still processed, their outcome unchanged). -/
theorem c10_empty_payload (api : ApiEnv) (name : String)
    (h : api.orgRepos name = .ok none) :
    repos_of_org api name = .ok [] ∧
    ∀ rest, explicitLoop api (name :: rest) = (explicitLoop api rest).map (List.cons []) := by
  have h1 : repos_of_org api name = .ok [] := by simp [repos_of_org, h]
  refine ⟨h1, fun rest => ?_⟩
  cases hl : explicitLoop api rest with
  | error e => simp [explicitLoop, h1, hl, Except.map]
  | ok more => simp [explicitLoop, h1, hl, Except.map]

/-- An API environment whose repository responses carry no payload. -/
def emptyBodyApi : ApiEnv :=
  { orgsResult := .ok none, orgRepos := fun _ => .ok none }

/-- Claim C10, witnessed on an organization with an absent repository
body. -/
theorem c10_empty_payload_witness :
    repos_of_org emptyBodyApi "acme" = .ok [] ∧
    ∀ rest, explicitLoop emptyBodyApi ("acme" :: rest)
      = (explicitLoop emptyBodyApi rest).map (List.cons []) :=
  c10_empty_payload emptyBodyApi "acme" rfl

/-! ## C2 and C5: parse failures and the process exit status -/

/-- A working tree whose first entry is a malformed source file (named
`".ts"`, the only name the broken suffix test yields) followed by a
subdirectory holding a well-formed one. -/
def parseFailTree : List FsEntry :=
  [FsEntry.file ".ts" true false, FsEntry.dir "sub" true [FsEntry.file ".ts" true true]]

/-- Pipeline environment of the repository whose tree contains the
malformed file; everything external succeeds. -/
def parseFailEnv : RepoEnv :=
  { curDirOk := true, git := .exited 0, rootReadable := true, tree := parseFailTree }

/-- Pipeline environment of a repository whose single source file is
well-formed. -/
def cleanEnv : RepoEnv :=
  { curDirOk := true, git := .exited 0, rootReadable := true,
    tree := [FsEntry.file ".ts" true true] }

def cleanRepo : Repo :=
  { fork := false, archived := false, clone_url := "https://example.com/b.git" }

/-- A two-repository run: `demoRepo`'s pipeline sees the malformed tree,
`cleanRepo`'s pipeline succeeds. -/
def twoRepoEnv : MainEnv :=
  { tokenPresent := true,
    api := { orgsResult := .ok none,
             orgRepos := fun _ => .ok (some [demoRepo, cleanRepo]) },
    repoEnv := fun r => if r.clone_url = demoRepo.clone_url then parseFailEnv else cleanEnv }

/-- Claim C2 counterexample: in a run where one pipeline hits only a parse
failure and the other pipeline succeeds, the parse failure is reported
(diagnostic emitted) and the pipeline fails — so far as claimed — but,
contrary to the claim, validation of that repository's remaining files
stops (the sibling subdirectory is never read) and the run's result is the
propagated parse-failure panic, i.e. a non-zero process exit status. -/
theorem c2_counterexample :
    (handle freshAlloc parseFailEnv demoRepo demoState).1
      = .error "Failed to parse module." ∧
    (handle freshAlloc cleanEnv cleanRepo demoState).1 = .ok () ∧
    Event.emitDiagnostic 1 [".ts"]
      ∈ (mainRun freshAlloc twoRepoEnv ["checker", "acme"] demoState).2.1 ∧
    Event.readDir 1 ["sub"]
      ∉ (mainRun freshAlloc twoRepoEnv ["checker", "acme"] demoState).2.1 ∧
    (mainRun freshAlloc twoRepoEnv ["checker", "acme"] demoState).1
      = .error "Failed to parse module." := by
  refine ⟨by decide, by decide, by decide, by decide, by decide⟩

/-- Claim C2 as amended: a file's syntax error is reported (its diagnostic
is emitted) and makes that file's check fail with the parse-failure panic;
the failure aborts the walk of the repository's remaining entries, marks
the pipeline as failed, and propagates to the run, making the process exit
status non-zero even when every other pipeline succeeds (each pipeline's
own outcome is a function of its own environment only). -/
theorem c2_amended :
    (∀ ws path, check_file ws path true false =
      (.error "Failed to parse module.",
        [Event.loadFile ws path, Event.emitDiagnostic ws path])) ∧
    (∀ ws p e rest msg ev, checkEntry ws p e = (.error msg, ev) →
      checkEntries ws p (e :: rest) = (.error msg, ev)) ∧
    (∀ alloc env argv s repos repo, resolveWorkSet env.api argv = .ok repos →
      repo ∈ repos → handleResult (env.repoEnv repo) repo s.rootExists ≠ .ok () →
      (mainRun alloc env argv s).1 ≠ .ok ()) := by
  refine ⟨fun ws path => by simp [check_file], ?_, ?_⟩
  · intro ws p e rest msg ev h
    simp [checkEntries, h]
  · intro alloc env argv s repos repo hws hmem hfail hok
    rw [mainRun_ok_iff] at hok
    obtain ⟨-, repos2, hws2, hall⟩ := hok
    rw [hws] at hws2
    obtain rfl := Except.ok.inj hws2
    exact hfail (hall repo hmem)

/-- Claim C2 amended, witnessed: the malformed head entry aborts the walk
with the panic message and its trace, and the two-repository run's result
is not success. -/
theorem c2_amended_witness :
    checkEntries 1 [] parseFailTree = (.error "Failed to parse module.",
      [Event.fileCheck 1 [".ts"], Event.loadFile 1 [".ts"],
        Event.emitDiagnostic 1 [".ts"]]) ∧
    (mainRun freshAlloc twoRepoEnv ["checker", "acme"] demoState).1 ≠ .ok () :=
  ⟨c2_amended.2.1 1 [] (FsEntry.file ".ts" true false)
      [FsEntry.dir "sub" true [FsEntry.file ".ts" true true]]
      "Failed to parse module."
      [Event.fileCheck 1 [".ts"], Event.loadFile 1 [".ts"],
        Event.emitDiagnostic 1 [".ts"]] (by decide),
   c2_amended.2.2 freshAlloc twoRepoEnv ["checker", "acme"] demoState
      [demoRepo, cleanRepo] demoRepo (by decide) (by decide) (by decide)⟩

/-- A one-repository run whose only defect anywhere is the malformed
source file: credential present, discovery succeeds, acquisition succeeds
(`git` exits `0`), every directory is readable and the file loads. -/
def onlyParseFailEnv : MainEnv :=
  { tokenPresent := true,
    api := { orgsResult := .ok none, orgRepos := fun _ => .ok (some [demoRepo]) },
    repoEnv := fun _ =>
      { curDirOk := true, git := .exited 0, rootReadable := true,
        tree := [FsEntry.file ".ts" true false] } }

/-- Claim C5 counterexample: a run in which no configuration, discovery,
acquisition or traversal failure occurs anywhere — the only defect is one
file's syntax error — still ends with a non-success result, i.e. a
non-zero exit status, contradicting "exits 0 if every launched pipeline
completed with no fatal error". -/
theorem c5_counterexample :
    onlyParseFailEnv.tokenPresent = true ∧
    resolveWorkSet onlyParseFailEnv.api ["checker", "acme"] = .ok [demoRepo] ∧
    (onlyParseFailEnv.repoEnv demoRepo).curDirOk = true ∧
    (onlyParseFailEnv.repoEnv demoRepo).git = SpawnResult.exited 0 ∧
    (onlyParseFailEnv.repoEnv demoRepo).rootReadable = true ∧
    (check_all_files 1 true (onlyParseFailEnv.repoEnv demoRepo).tree).1
      = .error "Failed to parse module." ∧
    (mainRun freshAlloc onlyParseFailEnv ["checker", "acme"] demoState).1
      ≠ .ok () := by
  refine ⟨by decide, by decide, by decide, by decide, by decide, by decide, by decide⟩

/-- Claim C5 as amended: the process exits with status 0 iff the credential
is present, work-set resolution succeeded, and every launched pipeline
completed with no error of any kind — where a pipeline's errors comprise
acquisition failure (current-directory, staging-root or spawn failure),
traversal failure, a file-load failure, and also any parse failure (whose
panic is propagated); any of these anywhere in the run makes the exit
status non-zero. -/
theorem c5_exit_status (alloc : List Nat → Nat) (env : MainEnv) (argv : List String)
    (s : FsState) :
    ((mainRun alloc env argv s).1 = .ok () ↔
      (env.tokenPresent = true ∧
        ∃ repos, resolveWorkSet env.api argv = .ok repos ∧
          ∀ repo ∈ repos, handleResult (env.repoEnv repo) repo s.rootExists = .ok ())) :=
  mainRun_ok_iff alloc env argv s

/-! ## C6: workspace lifetime -/

theorem createWs_before_work (u : String) (w : Nat) (tail : List Event) :
    ∀ l1 x l2, (Event.pulling u :: Event.createWs w :: tail : List Event) = l1 ++ x :: l2 →
      x.isWork = true → Event.createWs w ∈ l1 := by
  intro l1 x l2 hdec hwork
  cases l1 with
  | nil =>
    simp only [List.nil_append, List.cons.injEq] at hdec
    obtain ⟨rfl, -⟩ := hdec
    simp [Event.isWork] at hwork
  | cons a l1t =>
    cases l1t with
    | nil =>
      simp only [List.cons_append, List.nil_append, List.cons.injEq] at hdec
      obtain ⟨-, rfl, -⟩ := hdec
      simp [Event.isWork] at hwork
    | cons b l1tt =>
      simp only [List.cons_append, List.cons.injEq] at hdec
      obtain ⟨-, hb, -⟩ := hdec
      subst hb
      simp

/-- Claim C6: whenever a pipeline's run creates a workspace `w` (under any
allocator honouring `tempfile`'s freshness contract), then: `w` is distinct
from every workspace live at its creation — in particular from the
workspace of every concurrently running pipeline; every event of the
pipeline acts in `w` or in no workspace (the workspace is bound 1:1 to the
pipeline); every file-I/O event of the pipeline is preceded by the creation
of `w`; the trace ends with exactly one deletion of `w`, after all of the
repository's validation work, on success and on failure alike; and
afterwards the staging area is exactly as before, so `w` no longer exists
on disk and does not outlive its pipeline. -/
theorem c6_workspace_lifecycle (alloc : List Nat → Nat) (hfresh : ∀ l, alloc l ∉ l)
    (e : RepoEnv) (repo : Repo) (s : FsState) (w : Nat)
    (hw : Event.createWs w ∈ (handle alloc e repo s).2.1) :
    w ∉ s.live ∧
    (∀ x ∈ (handle alloc e repo s).2.1, x.wsOf = none ∨ x.wsOf = some w) ∧
    (∀ l1 x l2, (handle alloc e repo s).2.1 = l1 ++ x :: l2 → x.isWork = true →
      Event.createWs w ∈ l1) ∧
    (∃ pre, (handle alloc e repo s).2.1 = pre ++ [Event.deleteWs w] ∧
      Event.deleteWs w ∉ pre) ∧
    ((handle alloc e repo s).2.2).live = s.live ∧
    w ∉ ((handle alloc e repo s).2.2).live := by
  by_cases hc : e.curDirOk
  · by_cases hr : s.rootExists
    · cases hg : e.git with
      | noSpawn msg =>
        have hev : (handle alloc e repo s).2.1 =
            [Event.pulling repo.clone_url, Event.createWs (alloc s.live),
              Event.gitInvoke (gitArgs repo.clone_url (alloc s.live)) (alloc s.live),
              Event.deleteWs (alloc s.live)] := by
          simp [handle, git_pull, hc, hr, hg]
        have hst : ((handle alloc e repo s).2.2).live = s.live := by
          simp [handle, git_pull, hc, hr, hg]
        have hw0 : w = alloc s.live := by
          rw [hev] at hw
          simpa using hw
        subst hw0
        refine ⟨hfresh s.live, ?_, ?_, ?_, hst, ?_⟩
        · intro x hx
          rw [hev] at hx
          simp only [List.mem_cons, List.not_mem_nil, or_false] at hx
          rcases hx with rfl | rfl | rfl | rfl <;> simp [Event.wsOf]
        · intro l1 x l2 hdec hwork
          rw [hev] at hdec
          exact createWs_before_work repo.clone_url (alloc s.live) _ l1 x l2 hdec hwork
        · refine ⟨[Event.pulling repo.clone_url, Event.createWs (alloc s.live),
            Event.gitInvoke (gitArgs repo.clone_url (alloc s.live)) (alloc s.live)],
            ?_, by simp⟩
          rw [hev]
          rfl
        · rw [hst]
          exact hfresh s.live
      | exited n =>
        have hev : (handle alloc e repo s).2.1 =
            Event.pulling repo.clone_url :: Event.createWs (alloc s.live) ::
              Event.gitInvoke (gitArgs repo.clone_url (alloc s.live)) (alloc s.live) ::
              ((check_all_files (alloc s.live) e.rootReadable e.tree).2 ++
                [Event.deleteWs (alloc s.live)]) := by
          simp [handle, git_pull, hc, hr, hg]
        have hst : ((handle alloc e repo s).2.2).live = s.live := by
          simp [handle, git_pull, hc, hr, hg]
        have hw0 : w = alloc s.live := by
          rw [hev] at hw
          simp only [List.mem_cons, List.mem_append, List.mem_singleton,
            Event.createWs.injEq] at hw
          rcases hw with hw | hw | hw | hw | hw | hw
          · cases hw
          · exact hw
          · cases hw
          · have := check_all_files_walk (alloc s.live) e.rootReadable e.tree _ hw
            simp [Event.walkEvent] at this
          · cases hw
          · simp at hw
        subst hw0
        refine ⟨hfresh s.live, ?_, ?_, ?_, hst, ?_⟩
        · intro x hx
          rw [hev] at hx
          simp only [List.mem_cons, List.mem_append, List.mem_singleton] at hx
          rcases hx with rfl | rfl | rfl | hx | rfl | hx
          · exact Or.inl rfl
          · exact Or.inr rfl
          · exact Or.inr rfl
          · exact Or.inr
              (walkEvent_wsOf (check_all_files_walk (alloc s.live) e.rootReadable e.tree _ hx))
          · exact Or.inr rfl
          · simp at hx
        · intro l1 x l2 hdec hwork
          rw [hev] at hdec
          exact createWs_before_work repo.clone_url (alloc s.live) _ l1 x l2 hdec hwork
        · refine ⟨Event.pulling repo.clone_url :: Event.createWs (alloc s.live) ::
            Event.gitInvoke (gitArgs repo.clone_url (alloc s.live)) (alloc s.live) ::
              (check_all_files (alloc s.live) e.rootReadable e.tree).2, ?_, ?_⟩
          · rw [hev]
            simp
          · intro hmem
            simp only [List.mem_cons] at hmem
            rcases hmem with hmem | hmem | hmem | hmem
            · cases hmem
            · cases hmem
            · cases hmem
            · have := check_all_files_walk (alloc s.live) e.rootReadable e.tree _ hmem
              simp [Event.walkEvent] at this
        · rw [hst]
          exact hfresh s.live
    · have hev : (handle alloc e repo s).2.1 = [Event.pulling repo.clone_url] := by
        simp [handle, git_pull, hc, hr]
      rw [hev] at hw
      simp at hw
  · have hev : (handle alloc e repo s).2.1 = [Event.pulling repo.clone_url] := by
      simp [handle, git_pull, hc]
    rw [hev] at hw
    simp at hw

/-- Claim C6, witnessed on a concrete successful pipeline. -/
theorem c6_workspace_lifecycle_witness :
    (1 ∉ demoState.live ∧
      (∀ x ∈ (handle freshAlloc cleanEnv cleanRepo demoState).2.1,
        x.wsOf = none ∨ x.wsOf = some 1) ∧
      (∀ l1 x l2, (handle freshAlloc cleanEnv cleanRepo demoState).2.1 = l1 ++ x :: l2 →
        x.isWork = true → Event.createWs 1 ∈ l1) ∧
      (∃ pre, (handle freshAlloc cleanEnv cleanRepo demoState).2.1
          = pre ++ [Event.deleteWs 1] ∧ Event.deleteWs 1 ∉ pre) ∧
      ((handle freshAlloc cleanEnv cleanRepo demoState).2.2).live = demoState.live ∧
      1 ∉ ((handle freshAlloc cleanEnv cleanRepo demoState).2.2).live) :=
  c6_workspace_lifecycle freshAlloc freshAlloc_fresh cleanEnv cleanRepo demoState 1 (by decide)

end StackChecker
